import Mathlib

/-!
Verification of the instance-repository backend core: the UID validator,
the sandboxed compressed file store, the instance/solution repositories,
the range-bounds tracker, the schema-driven index with its query engine,
and the reconciliation passes that re-derive the index from the file store.

The Python sources are shallowly embedded: pydantic records become Lean
structures, the SQLite-backed index tables become association lists of rows,
sessions become explicit state passing, and exceptions become Except values.
Python floats are modelled as rationals extended with the three non-finite
values (nan, positive and negative infinity); only order comparisons and
finiteness tests occur in the modelled code, and those are exact on this
representation.  Strings are modelled over ASCII: Python's str.isalnum
coincides with letter-or-digit there, and every identifier the system
produces is ASCII.
-/

namespace InstanceRepo

/-! ## UID validator (instance_repository.py, check_uid_pattern) -/

/-- Python's str.isalnum restricted to ASCII (the embedding reasons only about
ASCII strings; on ASCII, Python's isalnum is exactly letter-or-digit). -/
def pyIsAlnum (c : Char) : Bool :=
  c.isAlpha || c.isDigit

/-- Character test of check_uid_pattern: c.isalnum() or c one of dash,
underscore, slash. -/
def allowedChar (c : Char) : Bool :=
  pyIsAlnum c || c = '-' || c = '_' || c = '/'

/-- Body of check_uid_pattern on the character list of the uid: the uid is
rejected iff some character is disallowed, or it starts with a slash, or it
ends with a slash.  Python's all(...) is vacuously true on the empty string. -/
def check_uid_chars (cs : List Char) : Bool :=
  cs.all allowedChar && !(cs.head? = some '/') && !(cs.getLast? = some '/')

/-- Embedding of check_uid_pattern(uid, fail=False): returns true iff the uid
passes; the fail=True variant raises ValueError exactly when this is false. -/
def check_uid_pattern (uid : String) : Bool :=
  check_uid_chars uid.data

/-- Specification-side character class A-Z, a-z, 0-9, underscore, slash, dash,
written from the spec text, to be compared against the code's character test. -/
def specAllowedChar (c : Char) : Bool :=
  ('A' ≤ c && c ≤ 'Z') || ('a' ≤ c && c ≤ 'z') || ('0' ≤ c && c ≤ '9') ||
    c = '-' || c = '_' || c = '/'

/-- Specification-side validity from the claim: non-empty, every character in
the class A-Z, a-z, 0-9, underscore, slash, dash, and no leading or trailing
slash. -/
def uid_valid_spec (s : String) : Bool :=
  !s.isEmpty && s.data.all specAllowedChar &&
    !(s.data.head? = some '/') && !(s.data.getLast? = some '/')

/-- Amended specification-side validity: the same grammar without the
non-emptiness requirement (the code accepts the empty string). -/
def uid_valid_amended (s : String) : Bool :=
  s.data.all specAllowedChar &&
    !(s.data.head? = some '/') && !(s.data.getLast? = some '/')

/-- Character is ASCII. -/
def isAsciiChar (c : Char) : Bool :=
  c.toNat < 128

/-- Prefix test on character lists. -/
def prefixB : List Char → List Char → Bool
  | [], _ => true
  | _ :: _, [] => false
  | a :: as, b :: bs => a == b && prefixB as bs

/-- Infix test on character lists. -/
def infixB (pat : List Char) : List Char → Bool
  | [] => prefixB pat []
  | c :: rest => prefixB pat (c :: rest) || infixB pat rest

/-- Embedding of str.startswith. -/
def pyStartsWith (s pre : String) : Bool :=
  prefixB pre.data s.data

/-- SQL contains on the uid column: substring test. -/
def containsSubstr (s pat : String) : Bool :=
  infixB pat.data s.data

/-! ## Python floats (order-exact model) -/

/-- Model of a Python float: a rational, or one of the non-finite values. -/
inductive PyFloat where
  | finite (q : ℚ)
  | nan
  | posInf
  | negInf
deriving DecidableEq, Repr

/-- Embedding of math.isfinite. -/
def PyFloat.isFinite : PyFloat → Bool
  | .finite _ => true
  | _ => false

/-- Order comparison (less-or-equal) as Python and SQLite evaluate it on the
modelled values; comparisons against nan are false. -/
def PyFloat.leB : PyFloat → PyFloat → Bool
  | .nan, _ => false
  | _, .nan => false
  | .negInf, _ => true
  | .posInf, .posInf => true
  | .posInf, _ => false
  | .finite _, .posInf => true
  | .finite _, .negInf => false
  | .finite a, .finite b => decide (a ≤ b)

/-! ## Range-bounds tracker (instance_index.py, RangeQueryBounds) -/

/-- Row of the shared bounds table, keyed by (problem_uid, field_name).
Stored endpoints are always finite, hence Option of a rational. -/
structure RangeQueryBounds where
  problem_uid : String
  field_name : String
  min_val : Option ℚ
  max_val : Option ℚ
deriving DecidableEq, Repr

/-- Embedding of RangeQueryBounds.update: returns the updated row and the
changed flag.  Non-finite values change nothing; first finite value sets both
endpoints; afterwards each endpoint moves only when the value lies strictly
outside the current interval. -/
def RangeQueryBounds.update (b : RangeQueryBounds) (val : PyFloat) :
    RangeQueryBounds × Bool :=
  match val with
  | .nan => (b, false)
  | .posInf => (b, false)
  | .negInf => (b, false)
  | .finite v =>
    match b.min_val, b.max_val with
    | none, _ => ({ b with min_val := some v, max_val := some v }, true)
    | _, none => ({ b with min_val := some v, max_val := some v }, true)
    | some mn, some mx =>
      let pmn := if v < mn then (v, true) else (mn, false)
      let pmx := if v > mx then (v, true) else (mx, false)
      ({ b with min_val := some pmn.1, max_val := some pmx.1 }, pmn.2 || pmx.2)

/-- Bounds row with no observed values yet, as created by index_instance when
the (problem_uid, field_name) key is absent. -/
def emptyBounds (puid f : String) : RangeQueryBounds :=
  { problem_uid := puid, field_name := f, min_val := none, max_val := none }

/-- Fold a sequence of values through update, starting from empty bounds. -/
def processBounds (puid f : String) (vs : List PyFloat) : RangeQueryBounds :=
  vs.foldl (fun b v => (b.update v).1) (emptyBounds puid f)

/-- The interval of the first bounds row is contained in that of the second
(absent endpoints denote the empty interval). -/
def boundsWiden (b b' : RangeQueryBounds) : Prop :=
  (∀ m, b.min_val = some m → ∃ m', b'.min_val = some m' ∧ m' ≤ m) ∧
    (∀ M, b.max_val = some M → ∃ M', b'.max_val = some M' ∧ M ≤ M')

/-- The bounds row has both endpoints and they enclose q. -/
def coversQ (b : RangeQueryBounds) (q : ℚ) : Prop :=
  ∃ m M, b.min_val = some m ∧ b.max_val = some M ∧ m ≤ q ∧ q ≤ M

/-! ## Sandboxed file store (instance_repository.py,
LocalFileSystemWithCompression), modelled as an association list from uid to
the stored record; lzma round-tripping of the serialized record is the
identity on the typed value. -/

/-- Errors surfaced by the modelled repository layer: ValueError for an
invalid uid, a mismatched uid field or an overwrite without permission, and
KeyError for a missing file. -/
inductive RepoError where
  | valueError
  | alreadyExists
  | keyError (uid : String)
deriving DecidableEq, Repr

/-- Embedding of LocalFileSystemWithCompression.exists. -/
def fs_exists {α : Type} (store : List (String × α)) (uid : String) : Bool :=
  (store.lookup uid).isSome

/-- Insert-or-replace at a key, preserving the position of an existing entry
(the file is rewritten in place); filesystem keys are unique. -/
def fs_upsert {α : Type} : List (String × α) → String → α → List (String × α)
  | [], uid, v => [(uid, v)]
  | p :: rest, uid, v =>
    if p.1 == uid then (uid, v) :: rest else p :: fs_upsert rest uid v

/-- Embedding of LocalFileSystemWithCompression.save: raises ValueError if the
target exists and exists_ok is not set, else writes the record under the uid. -/
def fs_save {α : Type} (store : List (String × α)) (data : α) (uid : String)
    (exists_ok : Bool) : Except RepoError (List (String × α)) :=
  if fs_exists store uid && !exists_ok then .error .alreadyExists
  else .ok (fs_upsert store uid data)

/-- Embedding of LocalFileSystemWithCompression.load: raises KeyError when no
file is stored under the uid. -/
def fs_load {α : Type} (store : List (String × α)) (uid : String) :
    Except RepoError α :=
  match store.lookup uid with
  | none => .error (.keyError uid)
  | some v => .ok v

/-- Embedding of LocalFileSystemWithCompression.delete: unlink when present,
no-op otherwise. -/
def fs_delete {α : Type} (store : List (String × α)) (uid : String) :
    List (String × α) :=
  store.eraseP (fun p => p.1 == uid)

/-- Embedding of LocalFileSystemWithCompression.all_uids: enumerate stored
keys and keep only those passing the uid pattern (defensive filtering). -/
def fs_all_uids {α : Type} (store : List (String × α)) : List String :=
  (store.map (fun p => p.1)).filter check_uid_pattern

/-! ## Instance repository (instance_repository.py, InstanceRepository).
Records are typed; the pydantic isinstance check is enforced by the Lean type.
The configured uid attribute is the instance_uid field, as in the shipped
problem configurations. -/

/-- Instance record: the uid field plus its numeric and boolean payload
fields, keyed by field name. -/
structure Instance where
  instance_uid : String
  nums : List (String × PyFloat)
  bools : List (String × Bool)
deriving DecidableEq, Repr

/-- Embedding of InstanceRepository.read_instance: validate the uid, load,
and reject a record whose embedded uid field differs from the lookup key. -/
def read_instance (store : List (String × Instance)) (uid : String) :
    Except RepoError Instance :=
  if check_uid_pattern uid then
    match fs_load store uid with
    | .error e => .error e
    | .ok inst => if inst.instance_uid = uid then .ok inst else .error .valueError
  else .error .valueError

/-- Embedding of InstanceRepository.write_instance: the uid is taken from the
record itself, validated, then the record is saved (exists_ok = overwrite). -/
def write_instance (store : List (String × Instance)) (inst : Instance)
    (overwrite : Bool) : Except RepoError (List (String × Instance)) :=
  if check_uid_pattern inst.instance_uid then
    fs_save store inst inst.instance_uid overwrite
  else .error .valueError

/-- Embedding of InstanceRepository.get_all_instance_uids. -/
def get_all_instance_uids (store : List (String × Instance)) : List String :=
  fs_all_uids store

/-! ## Solution repository (solution_repository.py, SolutionRepository). -/

/-- Solution record: the instance uid field plus the rest of the payload,
abstracted as one content string. -/
structure Solution where
  instance_uid : String
  content : String
deriving DecidableEq, Repr

/-- Stand-in for pydantic model_dump_json: a deterministic, injective
canonical serialization of the solution record. -/
def Solution.model_dump_json (s : Solution) : String :=
  "instance_uid=" ++ s.instance_uid ++ ";content=" ++ s.content

/-- Embedding of SolutionRepository.write_solution, parameterized by the
digest function (hashlib.md5 hexdigest in the source): the solution uid is
instance_uid, a slash, and the digest of the canonical serialization;
overwrite is permitted by default (exists_ok = overwrite). -/
def write_solution (digest : String → String)
    (store : List (String × Solution)) (sol : Solution) (overwrite : Bool) :
    Except RepoError (String × List (String × Solution)) :=
  let solution_txt := sol.model_dump_json
  let solution_hash := digest solution_txt
  let solution_uid := sol.instance_uid ++ "/" ++ solution_hash
  if check_uid_pattern sol.instance_uid then
    match fs_save store sol solution_uid overwrite with
    | .error e => .error e
    | .ok st => .ok (solution_uid, st)
  else .error .valueError

/-- Embedding of SolutionRepository.read_solution: validate the uid, load,
and reject a solution whose uid does not extend its instance uid field. -/
def read_solution (store : List (String × Solution)) (uid : String) :
    Except RepoError Solution :=
  if check_uid_pattern uid then
    match fs_load store uid with
    | .error e => .error e
    | .ok sol =>
      if pyStartsWith uid (sol.instance_uid ++ "/") then .ok sol
      else .error .valueError
  else .error .valueError

/-- Embedding of SolutionRepository.list_all_solution_uids. -/
def list_all_solution_uids (store : List (String × Solution)) : List String :=
  fs_all_uids store

/-! ## Storage paths (instance_repository.py).  A pure path is its list of
components, each a character list; pathlib drops empty and single-dot parts
when joining, and with_suffix rewrites the final component. -/

/-- Split a character list at slashes. -/
def splitSlash : List Char → List (List Char)
  | [] => [[]]
  | c :: rest =>
    if c = '/' then [] :: splitSlash rest
    else
      match splitSlash rest with
      | [] => [[c]]
      | p :: ps => (c :: p) :: ps

/-- Components pathlib keeps from a relative uid string: slash-separated
pieces, with empty and single-dot pieces dropped. -/
def pyPathParts (uid : String) : List (List Char) :=
  (splitSlash uid.data).filter (fun p => decide (p ≠ [] ∧ p ≠ ['.']))

/-- Name with its pathlib suffix removed: the suffix starts at the last dot,
provided that dot is neither the first nor the last character. -/
def stemChars (cs : List Char) : List Char :=
  let n := cs.length
  match ((List.range n).filter (fun i => decide (cs.get? i = some '.'))).getLast? with
  | none => cs
  | some i => if 0 < i ∧ i < n - 1 then cs.take i else cs

/-- Embedding of Path.with_suffix on a component list: rewrite the final
component, replacing its suffix by the given one.  An empty component list
(Path with an empty name) raises ValueError in pathlib and is unreachable
from the modelled call sites with a non-empty root. -/
def withSuffixParts (parts : List (List Char)) (suffix : List Char) :
    List (List Char) :=
  match parts.getLast? with
  | none => []
  | some name => parts.dropLast ++ [stemChars name ++ suffix]

/-- Characters of the compressed-file suffix. -/
def jsonXzSuffix : List Char :=
  ".json.xz".data

/-- Path touched by exists, load and delete for a uid: (root / uid) followed
by with_suffix of the json.xz suffix. -/
def storagePath (root : List (List Char)) (uid : String) : List (List Char) :=
  withSuffixParts (root ++ pyPathParts uid) jsonXzSuffix

/-- The second path lies strictly below the first. -/
def descendantB (root p : List (List Char)) : Bool :=
  root.isPrefixOf p && decide (root.length < p.length)

/-! ## Schema-driven instance index (instance_index.py, InstanceIndex).
The generated SQLModel table becomes a list of rows; a session becomes the
explicit pair of the row list and the bounds table. -/

/-- Catalog descriptor fields the modelled core reads (problem_info).  The
uid attribute is the instance_uid field. -/
structure ProblemInfo where
  problem_uid : String
  range_filters : List String
  boolean_filters : List String
  sort_fields : List String
  display_fields : List String
deriving DecidableEq, Repr

/-- Name of the configured uid attribute. -/
def uidAttribute : String :=
  "instance_uid"

/-- Column names of the generated index table: the uid attribute as primary
key plus the union of range-filter, boolean-filter, sort and display fields. -/
def tableColumns (info : ProblemInfo) : List String :=
  uidAttribute ::
    ((info.range_filters ++ info.boolean_filters ++ info.sort_fields ++
        info.display_fields).filter (fun f => f != uidAttribute)).dedup

/-- Row of the generated index table: the uid plus the projected numeric and
boolean fields. -/
structure Row where
  instance_uid : String
  nums : List (String × PyFloat)
  bools : List (String × Bool)
deriving DecidableEq, Repr

/-- Embedding of get_instance_info_from_data: project the record onto the
declared index columns. -/
def rowOf (info : ProblemInfo) (inst : Instance) : Row :=
  { instance_uid := inst.instance_uid,
    nums := inst.nums.filter (fun p => (tableColumns info).contains p.1),
    bools := inst.bools.filter (fun p => (tableColumns info).contains p.1) }

/-- Numeric attribute of a record (getattr on a range-filter field). -/
def instNum (inst : Instance) (f : String) : PyFloat :=
  (inst.nums.lookup f).getD .nan

/-- State of the relational index for one catalog: the generated row table
and the shared bounds table. -/
structure IndexState where
  rows : List Row
  bounds : List RangeQueryBounds
deriving DecidableEq, Repr

/-- Insert-or-replace a row at its primary key; an existing row keeps its
position and has every non-key field overwritten, which amounts to replacing
it by the new row. -/
def rowsUpsert : List Row → Row → List Row
  | [], row => [row]
  | r :: rest, row =>
    if r.instance_uid == row.instance_uid then row :: rest
    else r :: rowsUpsert rest row

/-- Lookup in the bounds table by its composite primary key. -/
def findBounds (bs : List RangeQueryBounds) (puid f : String) :
    Option RangeQueryBounds :=
  bs.find? (fun b => b.problem_uid == puid && b.field_name == f)

/-- Insert-or-replace in the bounds table at the composite key. -/
def boundsUpsert : List RangeQueryBounds → RangeQueryBounds →
    List RangeQueryBounds
  | [], b => [b]
  | x :: rest, b =>
    if x.problem_uid == b.problem_uid && x.field_name == b.field_name then b :: rest
    else x :: boundsUpsert rest b

/-- Embedding of InstanceIndex.index_instance: upsert the projected row, then
for every range-filter field fetch or create the bounds row and apply update;
the committed session persists the updated bounds row either way. -/
def index_instance (info : ProblemInfo) (st : IndexState) (inst : Instance) :
    IndexState :=
  let row := rowOf info inst
  let rows := rowsUpsert st.rows row
  let bounds := info.range_filters.foldl (fun bs f =>
    let value := instNum inst f
    let b0 := match findBounds bs info.problem_uid f with
              | some b => b
              | none => emptyBounds info.problem_uid f
    boundsUpsert bs (b0.update value).1) st.bounds
  { rows := rows, bounds := bounds }

/-- Embedding of InstanceIndex.deindex_instance: delete the row at the
primary key when present; an absent row is only logged. -/
def deindex_instance (st : IndexState) (uid : String) : IndexState :=
  { st with rows := st.rows.eraseP (fun r => r.instance_uid == uid) }

/-- Embedding of InstanceIndex.get_instance_uids. -/
def get_instance_uids (st : IndexState) : List String :=
  st.rows.map (fun r => r.instance_uid)

/-! ## Solution index (solution_index.py, SolutionIndex). -/

/-- Row of the generated solution index table: the solution uid as primary
key plus the instance uid attribute. -/
structure SolutionRow where
  solution_uid : String
  instance_uid : String
deriving DecidableEq, Repr

/-- Embedding of SolutionIndex.exists (the uid pattern check passes at every
modelled call site, where uids come from the enumerated store). -/
def solution_index_exists (idx : List SolutionRow) (uid : String) : Bool :=
  idx.any (fun r => r.solution_uid == uid)

/-- Embedding of SolutionIndex.index_solution: add a fresh row keyed by the
solution uid. -/
def index_solution (uid : String) (sol : Solution) (idx : List SolutionRow) :
    List SolutionRow :=
  idx ++ [{ solution_uid := uid, instance_uid := sol.instance_uid }]

/-- Uids present in the solution index. -/
def solution_index_uids (idx : List SolutionRow) : List String :=
  idx.map (fun r => r.solution_uid)

/-! ## Reconciliation (problem_endpoint.py). -/

/-- Embedding of ProblemEndpoint.sync_instance_index: deindex every indexed
uid whose file is gone, then load and index every stored uid that is not
indexed. -/
def sync_instance_index (info : ProblemInfo)
    (repo : List (String × Instance)) (st : IndexState) :
    Except RepoError IndexState :=
  let db_uids := get_instance_uids st
  let fs_uids := get_all_instance_uids repo
  let st1 := (db_uids.filter (fun u => !fs_uids.contains u)).foldl
    deindex_instance st
  (fs_uids.filter (fun u => !db_uids.contains u)).foldlM (fun s uid =>
    (read_instance repo uid).map (fun inst => index_instance info s inst)) st1

/-- Embedding of ProblemEndpoint.sync_solution_index: for every stored
solution uid, skip it when already indexed, otherwise load and index it.
Nothing is ever deindexed here. -/
def sync_solution_index (srepo : List (String × Solution))
    (idx : List SolutionRow) : Except RepoError (List SolutionRow) :=
  (list_all_solution_uids srepo).foldlM (fun idx uid =>
    if solution_index_exists idx uid then pure idx
    else (read_solution srepo uid).map (fun sol => index_solution uid sol idx)) idx

/-! ## Query engine (instance_index.py, InstanceIndex.query).  A filled-in
query schema carries, per range-filter field, optional inclusive bounds;
per boolean-filter field, an optional expected value; and the reserved
search, sort_by, offset and limit fields. -/

/-- Filled-in query request: presence of a key in an association list models
a non-None query parameter. -/
structure QueryRequest where
  geqs : List (String × ℚ)
  leqs : List (String × ℚ)
  boolEqs : List (String × Bool)
  search : Option String
  sort_by : Option String
  offset : Int
  limit : Int
deriving DecidableEq, Repr

/-- Failure while building the query statement: getattr on the table class
with an unknown attribute raises AttributeError, and subscripting the empty
sort_by string raises IndexError. -/
inductive QueryError where
  | attributeError (field : String)
  | indexError
deriving DecidableEq, Repr

/-- Generated paginated response shape. -/
structure PaginatedResponse where
  items : List Row
  offset : Int
  limit : Int
  total : Nat
deriving DecidableEq, Repr

/-- Numeric column of a row. -/
def rowNum (r : Row) (f : String) : PyFloat :=
  (r.nums.lookup f).getD .nan

/-- Boolean column of a row. -/
def rowBool (r : Row) (f : String) : Bool :=
  (r.bools.lookup f).getD false

/-- Conjunction of the WHERE clauses the query builder chains: inclusive
range bounds per range-filter field, equality per boolean-filter field with a
present value, and the substring search on the uid column. -/
def matchesQuery (info : ProblemInfo) (req : QueryRequest) (r : Row) : Bool :=
  (info.range_filters.all (fun f =>
    (match req.geqs.lookup f with
     | none => true
     | some m => PyFloat.leB (.finite m) (rowNum r f)) &&
    (match req.leqs.lookup f with
     | none => true
     | some M => PyFloat.leB (rowNum r f) (.finite M)))) &&
  (info.boolean_filters.all (fun f =>
    match req.boolEqs.lookup f with
    | none => true
    | some b => rowBool r f == b)) &&
  (match req.search with
   | none => true
   | some s => containsSubstr r.instance_uid s)

/-- Sort field with an optional leading descending marker removed. -/
def stripSortDash (s : String) : String :=
  match s.data with
  | '-' :: rest => String.mk rest
  | _ => s

/-- Comparison by one column, used for ORDER BY. -/
def colLe (f : String) (a b : Row) : Bool :=
  if f = uidAttribute then a.instance_uid ≤ b.instance_uid
  else
    match a.nums.lookup f, b.nums.lookup f with
    | some x, some y => PyFloat.leB x y
    | _, _ =>
      match a.bools.lookup f, b.bools.lookup f with
      | some x, some y => !x || y
      | _, _ => true

/-- Embedding of the sort_by handling in InstanceIndex.query: an empty string
fails on subscripting, a leading dash sorts descending on the rest, otherwise
ascending; a sort field that is not a table column fails on getattr. -/
def applySort (info : ProblemInfo) (s : String) (rows : List Row) :
    Except QueryError (List Row) :=
  match s.data with
  | [] => .error .indexError
  | c :: rest =>
    if c = '-' then
      if String.mk rest ∈ tableColumns info then
        .ok (rows.mergeSort (fun a b => colLe (String.mk rest) b a))
      else .error (.attributeError (String.mk rest))
    else
      if s ∈ tableColumns info then .ok (rows.mergeSort (colLe s))
      else .error (.attributeError s)

/-- OFFSET then LIMIT with SQLite semantics: a negative offset skips nothing
and a negative limit means no limit. -/
def paginate (offset limit : Int) (rows : List Row) : List Row :=
  let skipped := rows.drop offset.toNat
  if limit < 0 then skipped else skipped.take limit.toNat

/-- Embedding of InstanceIndex.query: build the filtered statement, apply the
optional sort, count the filtered rows before pagination, then apply offset
and limit to produce the page. -/
def InstanceIndex.query (info : ProblemInfo) (rows : List Row)
    (req : QueryRequest) : Except QueryError PaginatedResponse :=
  match req.sort_by with
  | none =>
    .ok { items := paginate req.offset req.limit (rows.filter (matchesQuery info req)),
          offset := req.offset, limit := req.limit,
          total := (rows.filter (matchesQuery info req)).length }
  | some s =>
    match applySort info s (rows.filter (matchesQuery info req)) with
    | .error e => .error e
    | .ok sorted =>
      .ok { items := paginate req.offset req.limit sorted,
            offset := req.offset, limit := req.limit, total := sorted.length }

/-! ## Supporting lemmas -/

lemma allowedChar_eq_specAllowedChar (c : Char) :
    allowedChar c = specAllowedChar c := by
  simp only [allowedChar, pyIsAlnum, specAllowedChar, Char.isAlpha, Char.isUpper,
    Char.isLower, Char.isDigit]
  rcases c with ⟨⟨v, hv⟩, h⟩
  simp [Char.le_def, UInt32.le_def, Fin.le_def]

/-! ## C1: the uid validator -/

/-- C1 counterexample: the claim requires the empty string to be rejected,
but check_uid_pattern accepts it (all(...) is vacuously true), while the
claimed validity predicate marks it invalid. -/
theorem c1_uid_validator_counterexample :
    check_uid_pattern "" = true ∧ uid_valid_spec "" = false := by
  constructor <;> rfl

/-- C1 (amended): for ASCII strings, check_uid_pattern accepts exactly the
strings whose characters all lie in the class A-Z, a-z, 0-9, underscore,
slash, dash and that neither start nor end with a slash; non-emptiness is not
required, so the empty string is accepted. -/
theorem c1_uid_validator_amended (s : String)
    (_hascii : s.data.all isAsciiChar = true) :
    check_uid_pattern s = uid_valid_amended s := by
  have hfun : allowedChar = specAllowedChar := funext allowedChar_eq_specAllowedChar
  unfold check_uid_pattern check_uid_chars uid_valid_amended
  rw [hfun]

/-- C1 witness: the amended equivalence evaluated at a concrete ASCII uid. -/
theorem c1_uid_validator_witness :
    ("ab/c-d_9".data.all isAsciiChar = true) ∧
      check_uid_pattern "ab/c-d_9" = uid_valid_amended "ab/c-d_9" :=
  ⟨by rfl, c1_uid_validator_amended "ab/c-d_9" (by rfl)⟩

/-! ## C6: monotone range bounds -/

/-- Well-formed bounds row: the two endpoints are absent together (every row
reachable from empty bounds satisfies this). -/
def boundsWF (b : RangeQueryBounds) : Prop :=
  b.min_val = none ↔ b.max_val = none

lemma update_nonfinite (b : RangeQueryBounds) (v : PyFloat)
    (h : v.isFinite = false) : b.update v = (b, false) := by
  cases v with
  | finite q => simp [PyFloat.isFinite] at h
  | nan => rfl
  | posInf => rfl
  | negInf => rfl

lemma boundsWF_empty (p f : String) : boundsWF (emptyBounds p f) := by
  simp [boundsWF, emptyBounds]

lemma update_finite_min_none (b : RangeQueryBounds) (q : ℚ)
    (hmin : b.min_val = none) :
    (b.update (.finite q)).1 = { b with min_val := some q, max_val := some q } := by
  simp [RangeQueryBounds.update, hmin]

lemma update_finite_max_none (b : RangeQueryBounds) (q mn : ℚ)
    (hmin : b.min_val = some mn) (hmax : b.max_val = none) :
    (b.update (.finite q)).1 = { b with min_val := some q, max_val := some q } := by
  simp [RangeQueryBounds.update, hmin, hmax]

lemma update_finite_some_some (b : RangeQueryBounds) (q mn mx : ℚ)
    (hmin : b.min_val = some mn) (hmax : b.max_val = some mx) :
    (b.update (.finite q)).1 =
      { b with min_val := some (if q < mn then q else mn),
               max_val := some (if mx < q then q else mx) } := by
  simp only [RangeQueryBounds.update, hmin, hmax, gt_iff_lt]
  by_cases h1 : q < mn <;> by_cases h2 : mx < q <;> simp [h1, h2]

lemma boundsWF_update (b : RangeQueryBounds) (v : PyFloat)
    (h : boundsWF b) : boundsWF (b.update v).1 := by
  cases v with
  | finite q =>
    rcases hmin : b.min_val with _ | mn
    · rw [update_finite_min_none b q hmin]
      simp [boundsWF]
    · rcases hmax : b.max_val with _ | mx
      · rw [update_finite_max_none b q mn hmin hmax]
        simp [boundsWF]
      · rw [update_finite_some_some b q mn mx hmin hmax]
        simp [boundsWF]
  | nan => exact h
  | posInf => exact h
  | negInf => exact h

lemma boundsWiden_refl (b : RangeQueryBounds) : boundsWiden b b := by
  constructor
  · intro m hm
    exact ⟨m, hm, le_refl m⟩
  · intro M hM
    exact ⟨M, hM, le_refl M⟩

lemma boundsWiden_trans {a b c : RangeQueryBounds}
    (h1 : boundsWiden a b) (h2 : boundsWiden b c) : boundsWiden a c := by
  constructor
  · intro m hm
    obtain ⟨m', hm', hle⟩ := h1.1 m hm
    obtain ⟨m'', hm'', hle'⟩ := h2.1 m' hm'
    exact ⟨m'', hm'', le_trans hle' hle⟩
  · intro M hM
    obtain ⟨M', hM', hle⟩ := h1.2 M hM
    obtain ⟨M'', hM'', hle'⟩ := h2.2 M' hM'
    exact ⟨M'', hM'', le_trans hle hle'⟩

lemma boundsWiden_update (b : RangeQueryBounds) (v : PyFloat)
    (h : boundsWF b) : boundsWiden b (b.update v).1 := by
  cases v with
  | finite q =>
    rcases hmin : b.min_val with _ | mn
    · rw [update_finite_min_none b q hmin]
      constructor
      · intro m hm
        rw [hmin] at hm
        cases hm
      · intro M hM
        rw [h.mp hmin] at hM
        cases hM
    · rcases hmax : b.max_val with _ | mx
      · exact absurd (h.mpr hmax) (by rw [hmin]; simp)
      · rw [update_finite_some_some b q mn mx hmin hmax]
        constructor
        · intro m hm
          rw [hmin] at hm
          injection hm with hm
          rw [← hm]
          refine ⟨if q < mn then q else mn, rfl, ?_⟩
          split
          · exact le_of_lt (by assumption)
          · exact le_refl mn
        · intro M hM
          rw [hmax] at hM
          injection hM with hM
          rw [← hM]
          refine ⟨if mx < q then q else mx, rfl, ?_⟩
          split
          · exact le_of_lt (by assumption)
          · exact le_refl mx
  | nan => exact boundsWiden_refl b
  | posInf => exact boundsWiden_refl b
  | negInf => exact boundsWiden_refl b

lemma coversQ_mono {b b' : RangeQueryBounds} {q : ℚ}
    (hw : boundsWiden b b') (hc : coversQ b q) : coversQ b' q := by
  obtain ⟨m, M, hm, hM, h1, h2⟩ := hc
  obtain ⟨m', hm', hle⟩ := hw.1 m hm
  obtain ⟨M', hM', hle'⟩ := hw.2 M hM
  exact ⟨m', M', hm', hM', le_trans hle h1, le_trans h2 hle'⟩

lemma coversQ_update (b : RangeQueryBounds) (q : ℚ) :
    coversQ (b.update (.finite q)).1 q := by
  rcases hmin : b.min_val with _ | mn
  · rw [update_finite_min_none b q hmin]
    exact ⟨q, q, rfl, rfl, le_refl q, le_refl q⟩
  · rcases hmax : b.max_val with _ | mx
    · rw [update_finite_max_none b q mn hmin hmax]
      exact ⟨q, q, rfl, rfl, le_refl q, le_refl q⟩
    · rw [update_finite_some_some b q mn mx hmin hmax]
      refine ⟨if q < mn then q else mn, if mx < q then q else mx, rfl, rfl, ?_, ?_⟩
      · split
        · exact le_refl q
        · exact le_of_not_lt (by assumption)
      · split
        · exact le_refl q
        · exact le_of_not_lt (by assumption)

lemma boundsWF_foldl (vs : List PyFloat) (b : RangeQueryBounds)
    (h : boundsWF b) : boundsWF (vs.foldl (fun b v => (b.update v).1) b) := by
  induction vs generalizing b with
  | nil => exact h
  | cons v rest ih => exact ih _ (boundsWF_update b v h)

lemma boundsWiden_foldl (vs : List PyFloat) (b : RangeQueryBounds)
    (h : boundsWF b) :
    boundsWiden b (vs.foldl (fun b v => (b.update v).1) b) := by
  induction vs generalizing b with
  | nil => exact boundsWiden_refl b
  | cons v rest ih =>
    exact boundsWiden_trans (boundsWiden_update b v h)
      (ih _ (boundsWF_update b v h))

lemma coversQ_foldl (vs : List PyFloat) (b : RangeQueryBounds) (q : ℚ)
    (hwf : boundsWF b) (hc : coversQ b q) :
    coversQ (vs.foldl (fun b v => (b.update v).1) b) q :=
  coversQ_mono (boundsWiden_foldl vs b hwf) hc

lemma coversQ_of_mem :
    ∀ (vs : List PyFloat) (b : RangeQueryBounds) (q : ℚ), boundsWF b →
      PyFloat.finite q ∈ vs →
      coversQ (vs.foldl (fun b v => (b.update v).1) b) q := by
  intro vs
  induction vs with
  | nil =>
    intro b q _ hmem
    cases hmem
  | cons v rest ih =>
    intro b q hwf hmem
    rcases List.mem_cons.mp hmem with hv | hv
    · rw [← hv]
      exact coversQ_foldl rest _ q (boundsWF_update b _ hwf) (coversQ_update b q)
    · exact ih ((b.update v).1) q (boundsWF_update b v hwf) hv

/-- C6: non-finite values leave the bounds unchanged; after folding a
sequence of values from empty bounds, the endpoints are present and enclose
every finite value of the sequence; and each step of the sequence only widens
the interval. -/
theorem c6_bounds_monotone (puid f : String) (vs : List PyFloat) :
    (∀ (b : RangeQueryBounds) (v : PyFloat), v.isFinite = false →
        b.update v = (b, false)) ∧
    (∀ q : ℚ, PyFloat.finite q ∈ vs → coversQ (processBounds puid f vs) q) ∧
    (∀ i : ℕ, boundsWiden (processBounds puid f (vs.take i))
        (processBounds puid f (vs.take (i + 1)))) := by
  refine ⟨update_nonfinite, ?_, ?_⟩
  · intro q hmem
    unfold processBounds
    exact coversQ_of_mem vs _ q (boundsWF_empty puid f) hmem
  · intro i
    rw [List.take_succ]
    unfold processBounds
    rw [List.foldl_append]
    rcases h : vs[i]? with _ | v
    · exact boundsWiden_refl _
    · exact boundsWiden_update _ v
        (boundsWF_foldl _ _ (boundsWF_empty puid f))

/-- C6 witness: the three parts of the bounds theorem evaluated on the
concrete sequence 3, nan, -2. -/
theorem c6_bounds_monotone_witness :
    RangeQueryBounds.update (emptyBounds "p" "f") .nan = (emptyBounds "p" "f", false) ∧
    coversQ (processBounds "p" "f" [.finite 3, .nan, .finite (-2)]) 3 ∧
    boundsWiden (processBounds "p" "f" ([.finite 3, .nan, .finite (-2)].take 1))
      (processBounds "p" "f" ([.finite 3, .nan, .finite (-2)].take 2)) :=
  ⟨(c6_bounds_monotone "p" "f" [.finite 3, .nan, .finite (-2)]).1 _ .nan rfl,
   (c6_bounds_monotone "p" "f" [.finite 3, .nan, .finite (-2)]).2.1 3 (by decide),
   (c6_bounds_monotone "p" "f" [.finite 3, .nan, .finite (-2)]).2.2 1⟩

/-! ## C9: deindexing never touches the bounds table -/

/-- C9: deindex_instance leaves every bounds row unchanged, removes no row
beyond the one keyed by the uid, and keeps every row with a different uid. -/
theorem c9_deindex_frame (st : IndexState) (uid : String) :
    (deindex_instance st uid).bounds = st.bounds ∧
    (∀ r, r ∈ (deindex_instance st uid).rows → r ∈ st.rows) ∧
    (∀ r, r ∈ st.rows → r.instance_uid ≠ uid →
      r ∈ (deindex_instance st uid).rows) := by
  refine ⟨rfl, ?_, ?_⟩
  · intro r hr
    exact List.mem_of_mem_eraseP hr
  · intro r hr hne
    exact (List.mem_eraseP_of_neg (by simp [hne])).mpr hr

/-- C9 witness: the frame property evaluated on a concrete two-row index
state with one bounds row. -/
theorem c9_deindex_frame_witness :
    (deindex_instance
        { rows := [{ instance_uid := "a", nums := [], bools := [] },
                   { instance_uid := "b", nums := [], bools := [] }],
          bounds := [emptyBounds "p" "f"] } "a").bounds = [emptyBounds "p" "f"] ∧
    ({ instance_uid := "b", nums := [], bools := [] } : Row) ∈
      (deindex_instance
        { rows := [{ instance_uid := "a", nums := [], bools := [] },
                   { instance_uid := "b", nums := [], bools := [] }],
          bounds := [emptyBounds "p" "f"] } "a").rows :=
  ⟨(c9_deindex_frame _ "a").1,
   (c9_deindex_frame _ "a").2.2 _ (by decide) (by decide)⟩

/-! ## Association-list lemmas for the file store -/

lemma fs_lookup_upsert_self {α : Type} (s : List (String × α)) (u : String)
    (v : α) : (fs_upsert s u v).lookup u = some v := by
  induction s with
  | nil => simp [fs_upsert, List.lookup]
  | cons p rest ih =>
    by_cases h : p.1 = u
    · simp [fs_upsert, h, List.lookup]
    · have h2 : (p.1 == u) = false := by simp [h]
      have hk : (u == p.1) = false := by
        simp only [beq_eq_false_iff_ne]
        exact fun hc => h hc.symm
      simp [fs_upsert, h2, List.lookup, hk, ih]

lemma fs_upsert_idem {α : Type} (s : List (String × α)) (u : String) (v : α) :
    fs_upsert (fs_upsert s u v) u v = fs_upsert s u v := by
  induction s with
  | nil => simp [fs_upsert]
  | cons p rest ih =>
    by_cases h : p.1 = u
    · simp [fs_upsert, h]
    · have h2 : (p.1 == u) = false := by simp [h]
      simp [fs_upsert, h2, ih]

/-! ## C8: write then read round-trips an instance -/

/-- C8: when the record's uid is valid and nothing is stored under it yet,
write_instance succeeds and a subsequent read_instance of that uid returns
the written record. -/
theorem c8_write_read_roundtrip (store : List (String × Instance))
    (inst : Instance) (hvalid : check_uid_pattern inst.instance_uid = true)
    (hnew : fs_exists store inst.instance_uid = false) :
    (write_instance store inst false).isOk = true ∧
    ∀ st1, write_instance store inst false = .ok st1 →
      read_instance st1 inst.instance_uid = .ok inst := by
  have hw : write_instance store inst false =
      .ok (fs_upsert store inst.instance_uid inst) := by
    simp [write_instance, hvalid, fs_save, hnew]
  refine ⟨by rw [hw]; rfl, ?_⟩
  intro st1 h1
  rw [hw] at h1
  injection h1 with h1
  rw [← h1]
  simp [read_instance, hvalid, fs_load, fs_lookup_upsert_self]

/-- C8 witness: round-trip of a concrete record through an empty store. -/
theorem c8_write_read_roundtrip_witness :
    (write_instance [] { instance_uid := "k1", nums := [], bools := [] } false).isOk
        = true ∧
    read_instance [("k1", { instance_uid := "k1", nums := [], bools := [] })]
        "k1" = .ok { instance_uid := "k1", nums := [], bools := [] } :=
  ⟨(c8_write_read_roundtrip []
      { instance_uid := "k1", nums := [], bools := [] } (by decide) (by decide)).1,
   (c8_write_read_roundtrip []
      { instance_uid := "k1", nums := [], bools := [] } (by decide) (by decide)).2
     [("k1", { instance_uid := "k1", nums := [], bools := [] })] (by rfl)⟩

/-! ## C7: content-addressed, idempotent solution writes -/

/-- C7: for any digest function, writing a solution yields the uid composed
of the instance uid, a slash and the digest of the canonical serialization;
writing the byte-identical solution again returns the same uid and the very
same store, so the second write overwrites in place and creates no second
file. -/
theorem c7_solution_content_addressing (digest : String → String)
    (store : List (String × Solution)) (sol : Solution)
    (hvalid : check_uid_pattern sol.instance_uid = true) :
    (write_solution digest store sol true).isOk = true ∧
    ∀ uid st1, write_solution digest store sol true = .ok (uid, st1) →
      uid = sol.instance_uid ++ "/" ++ digest sol.model_dump_json ∧
      write_solution digest st1 sol true = .ok (uid, st1) := by
  have hw : write_solution digest store sol true =
      .ok (sol.instance_uid ++ "/" ++ digest sol.model_dump_json,
        fs_upsert store (sol.instance_uid ++ "/" ++ digest sol.model_dump_json) sol) := by
    simp [write_solution, hvalid, fs_save]
  refine ⟨by rw [hw]; rfl, ?_⟩
  intro uid st1 h1
  rw [hw] at h1
  injection h1 with h1
  injection h1 with h1 h2
  refine ⟨h1.symm, ?_⟩
  rw [← h1, ← h2]
  simp [write_solution, hvalid, fs_save, fs_upsert_idem]

/-- C7 witness: both writes of a concrete solution against the empty store,
with a concrete digest function. -/
theorem c7_solution_content_addressing_witness :
    (write_solution (fun _ => "h0") [] { instance_uid := "i", content := "c" }
        true).isOk = true ∧
    write_solution (fun _ => "h0")
        [("i/h0", { instance_uid := "i", content := "c" })]
        { instance_uid := "i", content := "c" } true =
      .ok ("i/h0", [("i/h0", { instance_uid := "i", content := "c" })]) :=
  ⟨(c7_solution_content_addressing (fun _ => "h0") []
      { instance_uid := "i", content := "c" } (by decide)).1,
   ((c7_solution_content_addressing (fun _ => "h0") []
      { instance_uid := "i", content := "c" } (by decide)).2
     "i/h0" [("i/h0", { instance_uid := "i", content := "c" })] (by rfl)).2⟩

/-! ## C2: instance reconciliation -/

lemma foldl_deindex_bounds (L : List String) (st : IndexState) :
    (L.foldl deindex_instance st).bounds = st.bounds := by
  induction L generalizing st with
  | nil => rfl
  | cons u L ih =>
    rw [List.foldl_cons, ih]
    rfl

lemma foldl_deindex_cons (L : List String) (r : Row) (rows : List Row)
    (b : List RangeQueryBounds) (h : ∀ u ∈ L, (r.instance_uid == u) = false) :
    (L.foldl deindex_instance { rows := r :: rows, bounds := b }).rows =
      r :: (L.foldl deindex_instance { rows := rows, bounds := b }).rows := by
  induction L generalizing rows with
  | nil => rfl
  | cons u L ih =>
    rw [List.foldl_cons, List.foldl_cons]
    have hu : (r.instance_uid == u) = false := h u (List.mem_cons_self u L)
    have hd1 : deindex_instance { rows := r :: rows, bounds := b } u =
        { rows := r :: rows.eraseP (fun x => x.instance_uid == u), bounds := b } := by
      simp [deindex_instance, List.eraseP_cons, hu]
    have hd2 : deindex_instance { rows := rows, bounds := b } u =
        { rows := rows.eraseP (fun x => x.instance_uid == u), bounds := b } := by
      simp [deindex_instance]
    rw [hd1, hd2]
    exact ih _ (fun w hw => h w (List.mem_cons_of_mem u hw))

lemma phase1_rows (rows : List Row) (b : List RangeQueryBounds)
    (q : String → Bool) :
    (((rows.map (fun r => r.instance_uid)).filter q).foldl deindex_instance
        { rows := rows, bounds := b }).rows =
      rows.filter (fun r => !(q r.instance_uid)) := by
  induction rows with
  | nil => rfl
  | cons r rest ih =>
    rw [List.map_cons]
    by_cases hq : q r.instance_uid = true
    · rw [List.filter_cons_of_pos hq, List.foldl_cons]
      have hd : deindex_instance { rows := r :: rest, bounds := b }
          r.instance_uid = { rows := rest, bounds := b } := by
        simp [deindex_instance, List.eraseP_cons]
      rw [hd, ih, List.filter_cons_of_neg (by simp [hq])]
    · have hq' : q r.instance_uid = false := by
        simpa using hq
      rw [List.filter_cons_of_neg (by simp [hq'])]
      rw [foldl_deindex_cons _ r rest b (by
        intro u hu
        have hqu : q u = true := (List.mem_filter.mp hu).2
        have : u ≠ r.instance_uid := by
          intro hc
          rw [hc, hq'] at hqu
          cases hqu
        exact beq_eq_false_iff_ne.mpr (fun hc => this hc.symm))]
      rw [ih, List.filter_cons_of_pos (by simp [hq'])]

lemma lookup_mem {α : Type} :
    ∀ (l : List (String × α)) (u : String) (v : α),
      l.lookup u = some v → (u, v) ∈ l := by
  intro l
  induction l with
  | nil =>
    intro u v h
    cases h
  | cons p rest ih =>
    intro u v h
    obtain ⟨k, b⟩ := p
    by_cases hk : u = k
    · have hb : (u == k) = true := by simp [hk]
      simp only [List.lookup, hb] at h
      injection h with h
      rw [hk, ← h]
      exact List.mem_cons_self _ _
    · have hb : (u == k) = false := by simp [hk]
      simp only [List.lookup, hb] at h
      exact List.mem_cons_of_mem _ (ih u v h)

lemma lookup_isSome_of_mem_keys {α : Type} :
    ∀ (l : List (String × α)) (u : String),
      u ∈ l.map (fun p => p.1) → ∃ v, l.lookup u = some v := by
  intro l
  induction l with
  | nil =>
    intro u h
    cases h
  | cons p rest ih =>
    intro u h
    obtain ⟨k, b⟩ := p
    by_cases hk : u = k
    · have hb : (u == k) = true := by simp [hk]
      exact ⟨b, by simp [List.lookup, hb]⟩
    · have hb : (u == k) = false := by simp [hk]
      rw [List.map_cons] at h
      have hmem : u ∈ rest.map (fun p => p.1) := by
        rcases List.mem_cons.mp h with hc | hc
        · exact absurd hc hk
        · exact hc
      obtain ⟨v, hv⟩ := ih u hmem
      exact ⟨v, by simp [List.lookup, hb, hv]⟩

lemma read_instance_ok (repo : List (String × Instance)) (u : String)
    (hck : check_uid_pattern u = true)
    (hkey : u ∈ repo.map (fun p => p.1))
    (hwf : ∀ p ∈ repo, p.2.instance_uid = p.1) :
    ∃ inst, read_instance repo u = .ok inst ∧ inst.instance_uid = u := by
  obtain ⟨v, hv⟩ := lookup_isSome_of_mem_keys repo u hkey
  have huid : v.instance_uid = u := hwf (u, v) (lookup_mem repo u v hv)
  refine ⟨v, ?_, huid⟩
  simp [read_instance, hck, fs_load, hv, huid]

lemma rowsUpsert_uids (rows : List Row) (row : Row) (u : String) :
    u ∈ (rowsUpsert rows row).map (fun r => r.instance_uid) ↔
      u ∈ rows.map (fun r => r.instance_uid) ∨ u = row.instance_uid := by
  induction rows with
  | nil => simp [rowsUpsert]
  | cons r rest ih =>
    by_cases h : r.instance_uid = row.instance_uid
    · have hb : (r.instance_uid == row.instance_uid) = true := by simp [h]
      simp only [rowsUpsert, hb, if_true, List.map_cons, List.mem_cons]
      rw [h]
      tauto
    · have hb : (r.instance_uid == row.instance_uid) = false := by simp [h]
      simp only [rowsUpsert, hb, Bool.false_eq_true, if_false, List.map_cons,
        List.mem_cons]
      rw [ih]
      tauto

lemma index_instance_uids (info : ProblemInfo) (st : IndexState)
    (inst : Instance) (u : String) :
    u ∈ get_instance_uids (index_instance info st inst) ↔
      u ∈ get_instance_uids st ∨ u = inst.instance_uid := by
  have : (index_instance info st inst).rows = rowsUpsert st.rows (rowOf info inst) := rfl
  unfold get_instance_uids
  rw [this]
  exact rowsUpsert_uids st.rows (rowOf info inst) u

lemma phase2_uids (info : ProblemInfo) (repo : List (String × Instance))
    (hwf : ∀ p ∈ repo, p.2.instance_uid = p.1) :
    ∀ (L : List String) (st : IndexState),
      (∀ u ∈ L, u ∈ repo.map (fun p => p.1) ∧ check_uid_pattern u = true) →
      ∃ st', (L.foldlM (fun s uid =>
          (read_instance repo uid).map (fun inst => index_instance info s inst)) st)
          = .ok st' ∧
        ∀ w, w ∈ get_instance_uids st' ↔ w ∈ get_instance_uids st ∨ w ∈ L := by
  intro L
  induction L with
  | nil =>
    intro st _
    exact ⟨st, rfl, by simp⟩
  | cons u L ih =>
    intro st hL
    obtain ⟨hkey, hck⟩ := hL u (List.mem_cons_self u L)
    obtain ⟨inst, hread, huid⟩ := read_instance_ok repo u hck hkey hwf
    obtain ⟨st', hfold, hiff⟩ := ih (index_instance info st inst)
      (fun w hw => hL w (List.mem_cons_of_mem u hw))
    refine ⟨st', ?_, ?_⟩
    · rw [List.foldlM_cons, hread]
      exact hfold
    · intro w
      rw [hiff w, index_instance_uids, huid]
      constructor
      · rintro ((hw | hw) | hw)
        · exact Or.inl hw
        · exact Or.inr (by simp [hw])
        · exact Or.inr (List.mem_cons_of_mem u hw)
      · rintro (hw | hw)
        · exact Or.inl (Or.inl hw)
        · rcases List.mem_cons.mp hw with hc | hc
          · exact Or.inl (Or.inr hc)
          · exact Or.inr hc

/-- C2: when each stored record's uid field equals its storage key (which
write_instance guarantees), one run of sync_instance_index succeeds; a uid
indexed but not stored is gone afterwards, a uid stored but not indexed is
present afterwards, and the indexed uid set equals the enumerated stored uid
set. -/
theorem c2_sync_instance_convergence (info : ProblemInfo)
    (repo : List (String × Instance)) (st : IndexState)
    (hwf : ∀ p ∈ repo, p.2.instance_uid = p.1) :
    (sync_instance_index info repo st).isOk = true ∧
    ∀ st', sync_instance_index info repo st = .ok st' →
      (∀ u, u ∈ get_instance_uids st' ↔ u ∈ get_all_instance_uids repo) ∧
      (∀ u, u ∈ get_instance_uids st → u ∉ get_all_instance_uids repo →
        u ∉ get_instance_uids st') ∧
      (∀ u, u ∈ get_all_instance_uids repo → u ∉ get_instance_uids st →
        u ∈ get_instance_uids st') := by
  have hL2 : ∀ u ∈ (get_all_instance_uids repo).filter
      (fun u => !(get_instance_uids st).contains u),
      u ∈ repo.map (fun p => p.1) ∧ check_uid_pattern u = true := by
    intro u hu
    have hu' : u ∈ get_all_instance_uids repo := (List.mem_filter.mp hu).1
    have := List.mem_filter.mp hu'
    exact ⟨this.1, this.2⟩
  set st1 := ((get_instance_uids st).filter
    (fun u => !(get_all_instance_uids repo).contains u)).foldl deindex_instance st
    with hst1
  obtain ⟨st', hfold, hiff⟩ := phase2_uids info repo hwf
    ((get_all_instance_uids repo).filter
      (fun u => !(get_instance_uids st).contains u)) st1 hL2
  have hsync : sync_instance_index info repo st = .ok st' := hfold
  have hst1_uids : ∀ u, u ∈ get_instance_uids st1 ↔
      u ∈ get_instance_uids st ∧ u ∈ get_all_instance_uids repo := by
    intro u
    have hrows : st1.rows = st.rows.filter
        (fun r => !(!(get_all_instance_uids repo).contains r.instance_uid)) := by
      rw [hst1]
      exact phase1_rows st.rows st.bounds _
    unfold get_instance_uids
    rw [hrows]
    simp only [List.mem_map, List.mem_filter, Bool.not_not]
    constructor
    · rintro ⟨r, ⟨hr, hc⟩, he⟩
      refine ⟨⟨r, hr, he⟩, ?_⟩
      rw [← he]
      simpa using hc
    · rintro ⟨⟨r, hr, he⟩, hm⟩
      exact ⟨r, ⟨hr, by rw [he]; simpa using hm⟩, he⟩
  have hmain : ∀ u, u ∈ get_instance_uids st' ↔ u ∈ get_all_instance_uids repo := by
    intro u
    rw [hiff u, hst1_uids u]
    constructor
    · rintro (⟨_, hfs⟩ | hmem)
      · exact hfs
      · exact (List.mem_filter.mp hmem).1
    · intro hfs
      by_cases hdb : u ∈ get_instance_uids st
      · exact Or.inl ⟨hdb, hfs⟩
      · refine Or.inr (List.mem_filter.mpr ⟨hfs, ?_⟩)
        simpa using hdb
  refine ⟨by rw [hsync]; rfl, ?_⟩
  intro st'' hs
  rw [hsync] at hs
  injection hs with hs
  subst hs
  refine ⟨hmain, ?_, ?_⟩
  · intro u _ hufs hu'
    exact hufs ((hmain u).mp hu')
  · intro u hufs _
    exact (hmain u).mpr hufs

/-- C2 witness: a concrete divergent state (one stale indexed uid, two stored
but unindexed records) repaired by one reconciliation pass. -/
theorem c2_sync_instance_convergence_witness :
    (sync_instance_index
        { problem_uid := "p", range_filters := [], boolean_filters := [],
          sort_fields := [], display_fields := [] }
        [("a", { instance_uid := "a", nums := [], bools := [] }),
         ("b", { instance_uid := "b", nums := [], bools := [] })]
        { rows := [{ instance_uid := "c", nums := [], bools := [] }],
          bounds := [] }).isOk = true ∧
    "b" ∈ get_instance_uids
        { rows := [{ instance_uid := "a", nums := [], bools := [] },
                   { instance_uid := "b", nums := [], bools := [] }],
          bounds := [] } ∧
    "c" ∉ get_instance_uids
        { rows := [{ instance_uid := "a", nums := [], bools := [] },
                   { instance_uid := "b", nums := [], bools := [] }],
          bounds := [] } := by
  have h := c2_sync_instance_convergence
    { problem_uid := "p", range_filters := [], boolean_filters := [],
      sort_fields := [], display_fields := [] }
    [("a", { instance_uid := "a", nums := [], bools := [] }),
     ("b", { instance_uid := "b", nums := [], bools := [] })]
    { rows := [{ instance_uid := "c", nums := [], bools := [] }], bounds := [] }
    (by decide)
  refine ⟨h.1, ?_, ?_⟩
  · exact ((h.2 _ (by rfl)).1 "b").mpr (by decide)
  · exact (h.2 _ (by rfl)).2.1 "c" (by decide) (by decide)

/-! ## C3: solution reconciliation -/

/-- C3 counterexample: with one stale indexed solution uid and an empty
store, the sync pass returns the index unchanged; the stale uid stays
indexed although its backing file is absent, so the indexed set does not
equal the stored set. -/
theorem c3_sync_solution_counterexample :
    sync_solution_index ([] : List (String × Solution))
        [{ solution_uid := "i/h1", instance_uid := "i" }] =
      .ok [{ solution_uid := "i/h1", instance_uid := "i" }] ∧
    "i/h1" ∈ solution_index_uids [{ solution_uid := "i/h1", instance_uid := "i" }] ∧
    "i/h1" ∉ list_all_solution_uids ([] : List (String × Solution)) :=
  ⟨rfl, by decide, by decide⟩

lemma read_solution_ok (srepo : List (String × Solution)) (u : String)
    (hck : check_uid_pattern u = true)
    (hkey : u ∈ srepo.map (fun p => p.1))
    (hwf : ∀ p ∈ srepo, pyStartsWith p.1 ((p.2).instance_uid ++ "/") = true) :
    ∃ sol, read_solution srepo u = .ok sol := by
  obtain ⟨v, hv⟩ := lookup_isSome_of_mem_keys srepo u hkey
  have hpre : pyStartsWith u (v.instance_uid ++ "/") = true :=
    hwf (u, v) (lookup_mem srepo u v hv)
  exact ⟨v, by simp [read_solution, hck, fs_load, hv, hpre]⟩

lemma solution_index_exists_iff (idx : List SolutionRow) (u : String) :
    solution_index_exists idx u = true ↔ u ∈ solution_index_uids idx := by
  simp [solution_index_exists, solution_index_uids, List.any_eq_true,
    List.mem_map]

lemma index_solution_uids (uid : String) (sol : Solution)
    (idx : List SolutionRow) (w : String) :
    w ∈ solution_index_uids (index_solution uid sol idx) ↔
      w ∈ solution_index_uids idx ∨ w = uid := by
  simp [index_solution, solution_index_uids]

lemma phase_solution_uids (srepo : List (String × Solution))
    (hwf : ∀ p ∈ srepo, pyStartsWith p.1 ((p.2).instance_uid ++ "/") = true) :
    ∀ (L : List String) (idx : List SolutionRow),
      (∀ u ∈ L, u ∈ srepo.map (fun p => p.1) ∧ check_uid_pattern u = true) →
      ∃ idx', (L.foldlM (fun idx uid =>
          if solution_index_exists idx uid then pure idx
          else (read_solution srepo uid).map
            (fun sol => index_solution uid sol idx)) idx) = .ok idx' ∧
        ∀ w, w ∈ solution_index_uids idx' ↔
          w ∈ solution_index_uids idx ∨ w ∈ L := by
  intro L
  induction L with
  | nil =>
    intro idx _
    exact ⟨idx, rfl, by simp⟩
  | cons u L ih =>
    intro idx hL
    obtain ⟨hkey, hck⟩ := hL u (List.mem_cons_self u L)
    by_cases hex : solution_index_exists idx u = true
    · obtain ⟨idx', hfold, hiff⟩ := ih idx
        (fun w hw => hL w (List.mem_cons_of_mem u hw))
      refine ⟨idx', ?_, ?_⟩
      · rw [List.foldlM_cons, hex]
        exact hfold
      · intro w
        rw [hiff w]
        have hu : u ∈ solution_index_uids idx :=
          (solution_index_exists_iff idx u).mp hex
        constructor
        · rintro (hw | hw)
          · exact Or.inl hw
          · exact Or.inr (List.mem_cons_of_mem u hw)
        · rintro (hw | hw)
          · exact Or.inl hw
          · rcases List.mem_cons.mp hw with hc | hc
            · exact Or.inl (by rw [hc]; exact hu)
            · exact Or.inr hc
    · have hex' : solution_index_exists idx u = false := by
        simpa using hex
      obtain ⟨sol, hread⟩ := read_solution_ok srepo u hck hkey hwf
      obtain ⟨idx', hfold, hiff⟩ := ih (index_solution u sol idx)
        (fun w hw => hL w (List.mem_cons_of_mem u hw))
      refine ⟨idx', ?_, ?_⟩
      · rw [List.foldlM_cons, hex', hread]
        exact hfold
      · intro w
        rw [hiff w, index_solution_uids]
        constructor
        · rintro ((hw | hw) | hw)
          · exact Or.inl hw
          · exact Or.inr (by rw [hw]; exact List.mem_cons_self u L)
          · exact Or.inr (List.mem_cons_of_mem u hw)
        · rintro (hw | hw)
          · exact Or.inl (Or.inl hw)
          · rcases List.mem_cons.mp hw with hc | hc
            · exact Or.inl (Or.inr hc)
            · exact Or.inr hc

/-- C3 (amended): sync_solution_index performs only the indexing pass.  When
every stored solution's uid extends its instance uid field (which
write_solution guarantees), the pass succeeds, and afterwards the indexed
solution uid set is the union of the previously indexed set and the stored
set; indexed uids whose backing file is absent are not deindexed. -/
theorem c3_sync_solution_amended (srepo : List (String × Solution))
    (sidx : List SolutionRow)
    (hwf : ∀ p ∈ srepo, pyStartsWith p.1 ((p.2).instance_uid ++ "/") = true) :
    (sync_solution_index srepo sidx).isOk = true ∧
    ∀ idx', sync_solution_index srepo sidx = .ok idx' →
      ∀ u, u ∈ solution_index_uids idx' ↔
        u ∈ solution_index_uids sidx ∨ u ∈ list_all_solution_uids srepo := by
  have hL : ∀ u ∈ list_all_solution_uids srepo,
      u ∈ srepo.map (fun p => p.1) ∧ check_uid_pattern u = true := by
    intro u hu
    have := List.mem_filter.mp hu
    exact ⟨this.1, this.2⟩
  obtain ⟨idx', hfold, hiff⟩ := phase_solution_uids srepo hwf
    (list_all_solution_uids srepo) sidx hL
  have hsync : sync_solution_index srepo sidx = .ok idx' := hfold
  refine ⟨by rw [hsync]; rfl, ?_⟩
  intro idx'' hs
  rw [hsync] at hs
  injection hs with hs
  subst hs
  exact hiff

/-- C3 witness: one stale indexed solution plus one stored, unindexed
solution; after the pass both are indexed (the stale uid is kept). -/
theorem c3_sync_solution_amended_witness :
    (sync_solution_index [("i/h", { instance_uid := "i", content := "c" })]
        [{ solution_uid := "i/old", instance_uid := "i" }]).isOk = true ∧
    "i/h" ∈ solution_index_uids
        [{ solution_uid := "i/old", instance_uid := "i" },
         { solution_uid := "i/h", instance_uid := "i" }] ∧
    "i/old" ∈ solution_index_uids
        [{ solution_uid := "i/old", instance_uid := "i" },
         { solution_uid := "i/h", instance_uid := "i" }] := by
  have h := c3_sync_solution_amended
    [("i/h", { instance_uid := "i", content := "c" })]
    [{ solution_uid := "i/old", instance_uid := "i" }] (by decide)
  refine ⟨h.1, ?_, ?_⟩
  · exact ((h.2 _ (by rfl)) "i/h").mpr (by decide)
  · exact ((h.2 _ (by rfl)) "i/old").mpr (by decide)

/-! ## C4 and C5: the query engine -/

lemma paginate_empty (off lim : Int) (l : List Row) (h : l.length ≤ off.toNat) :
    paginate off lim l = [] := by
  unfold paginate
  rw [List.drop_eq_nil_of_le h]
  split <;> simp

lemma applySort_ok_length (info : ProblemInfo) (s : String) (l sorted : List Row)
    (h : applySort info s l = .ok sorted) : sorted.length = l.length := by
  unfold applySort at h
  split at h
  · exact Except.noConfusion h
  · split at h
    · split at h
      · injection h with h
        rw [← h]
        exact List.length_mergeSort _
      · exact Except.noConfusion h
    · split at h
      · injection h with h
        rw [← h]
        exact List.length_mergeSort _
      · exact Except.noConfusion h

/-- C4: whenever the query succeeds, the reported total is the number of rows
satisfying the range, boolean and substring filters, computed from the row
set and the filters alone (independent of offset and limit); and when the
offset is at or past the end of the filtered set the returned page is empty
while the total still reports the filtered count. -/
theorem c4_query_total_independent (info : ProblemInfo) (rows : List Row)
    (req : QueryRequest) :
    ∀ resp, InstanceIndex.query info rows req = .ok resp →
      (resp.total = rows.countP (matchesQuery info req) ∧
       resp.offset = req.offset ∧ resp.limit = req.limit) ∧
      (resp.total ≤ req.offset.toNat → resp.items = []) := by
  intro resp h
  unfold InstanceIndex.query at h
  split at h
  · injection h with h
    rw [← h]
    refine ⟨⟨?_, rfl, rfl⟩, ?_⟩
    · simp [List.countP_eq_length_filter]
    · intro hoff
      exact paginate_empty _ _ _ hoff
  · next s hs =>
    split at h
    · exact Except.noConfusion h
    · next sorted ha =>
      injection h with h
      rw [← h]
      have hlen : sorted.length = (rows.filter (matchesQuery info req)).length :=
        applySort_ok_length info s _ sorted ha
      refine ⟨⟨?_, rfl, rfl⟩, ?_⟩
      · simp [hlen, List.countP_eq_length_filter]
      · intro hoff
        exact paginate_empty _ _ _ hoff

/-- C4 witness: five indexed rows, no filters, offset 3 and limit 5 return a
page of 2 rows with total 5; with offset 7 the page is empty and the total is
still 5. -/
theorem c4_query_total_independent_witness :
    InstanceIndex.query
        { problem_uid := "p", range_filters := [], boolean_filters := [],
          sort_fields := [], display_fields := [] }
        [{ instance_uid := "u1", nums := [], bools := [] },
         { instance_uid := "u2", nums := [], bools := [] },
         { instance_uid := "u3", nums := [], bools := [] },
         { instance_uid := "u4", nums := [], bools := [] },
         { instance_uid := "u5", nums := [], bools := [] }]
        { geqs := [], leqs := [], boolEqs := [], search := none,
          sort_by := none, offset := 3, limit := 5 } =
      .ok { items := [{ instance_uid := "u4", nums := [], bools := [] },
                      { instance_uid := "u5", nums := [], bools := [] }],
            offset := 3, limit := 5, total := 5 } ∧
    (5 : Nat) = List.countP (matchesQuery
        { problem_uid := "p", range_filters := [], boolean_filters := [],
          sort_fields := [], display_fields := [] }
        { geqs := [], leqs := [], boolEqs := [], search := none,
          sort_by := none, offset := 3, limit := 5 })
        [{ instance_uid := "u1", nums := [], bools := [] },
         { instance_uid := "u2", nums := [], bools := [] },
         { instance_uid := "u3", nums := [], bools := [] },
         { instance_uid := "u4", nums := [], bools := [] },
         { instance_uid := "u5", nums := [], bools := [] }] ∧
    ({ items := [], offset := 7, limit := 5, total := 5 } : PaginatedResponse).items
        = [] := by
  refine ⟨by rfl, ?_, ?_⟩
  · exact ((c4_query_total_independent
      { problem_uid := "p", range_filters := [], boolean_filters := [],
        sort_fields := [], display_fields := [] }
      [{ instance_uid := "u1", nums := [], bools := [] },
       { instance_uid := "u2", nums := [], bools := [] },
       { instance_uid := "u3", nums := [], bools := [] },
       { instance_uid := "u4", nums := [], bools := [] },
       { instance_uid := "u5", nums := [], bools := [] }]
      { geqs := [], leqs := [], boolEqs := [], search := none,
        sort_by := none, offset := 3, limit := 5 }
      { items := [{ instance_uid := "u4", nums := [], bools := [] },
                  { instance_uid := "u5", nums := [], bools := [] }],
        offset := 3, limit := 5, total := 5 } (by rfl)).1).1
  · exact (c4_query_total_independent
      { problem_uid := "p", range_filters := [], boolean_filters := [],
        sort_fields := [], display_fields := [] }
      [{ instance_uid := "u1", nums := [], bools := [] },
       { instance_uid := "u2", nums := [], bools := [] },
       { instance_uid := "u3", nums := [], bools := [] },
       { instance_uid := "u4", nums := [], bools := [] },
       { instance_uid := "u5", nums := [], bools := [] }]
      { geqs := [], leqs := [], boolEqs := [], search := none,
        sort_by := none, offset := 7, limit := 5 }
      { items := [], offset := 7, limit := 5, total := 5 } (by rfl)).2 (by decide)

lemma stripSortDash_dash (s : String) (rest : List Char)
    (h : s.data = '-' :: rest) : stripSortDash s = String.mk rest := by
  unfold stripSortDash
  rw [h]
  split
  · next heq =>
    injection heq with h1 h2
    rw [h2]
  · next hne =>
    exact absurd rfl (hne rest)

lemma stripSortDash_other (s : String) (c : Char) (rest : List Char)
    (h : s.data = c :: rest) (hc : c ≠ '-') : stripSortDash s = s := by
  unfold stripSortDash
  rw [h]
  split
  · next heq =>
    injection heq with h1 h2
    exact absurd h1 hc
  · rfl

lemma applySort_unknown (info : ProblemInfo) (s : String) (l : List Row)
    (h : stripSortDash s ∉ tableColumns info) :
    applySort info s l =
      .error (if s.data = [] then .indexError
              else .attributeError (stripSortDash s)) := by
  unfold applySort
  split
  · next hdata =>
    rw [if_pos hdata]
  · next c rest hdata =>
    by_cases hc : c = '-'
    · rw [if_pos hc]
      have hstrip : stripSortDash s = String.mk rest :=
        stripSortDash_dash s rest (by rw [hdata, hc])
      rw [hstrip] at h
      rw [if_neg h, if_neg (by simp [hdata]), hstrip]
    · rw [if_neg hc]
      have hstrip : stripSortDash s = s :=
        stripSortDash_other s c rest hdata hc
      rw [hstrip] at h
      rw [if_neg h, if_neg (by simp [hdata]), hstrip]

/-- C5: a present sort_by whose field (after stripping an optional leading
dash) is not a column of the generated index table makes the query fail with
an error (IndexError for the empty string, AttributeError from getattr
otherwise) instead of returning results with the sort ignored. -/
theorem c5_unknown_sort_fails (info : ProblemInfo) (rows : List Row)
    (req : QueryRequest) (s : String) (h1 : req.sort_by = some s)
    (h2 : stripSortDash s ∉ tableColumns info) :
    InstanceIndex.query info rows req =
      .error (if s.data = [] then .indexError
              else .attributeError (stripSortDash s)) := by
  unfold InstanceIndex.query
  simp only [h1,
    applySort_unknown info s (rows.filter (matchesQuery info req)) h2]

/-- C5 witness: sorting by the unknown field "nonexistent" fails with the
attribute error naming it. -/
theorem c5_unknown_sort_fails_witness :
    InstanceIndex.query
        { problem_uid := "p", range_filters := [], boolean_filters := [],
          sort_fields := ["size"], display_fields := [] }
        ([] : List Row)
        { geqs := [], leqs := [], boolEqs := [], search := none,
          sort_by := some "nonexistent", offset := 0, limit := 100 } =
      .error (.attributeError "nonexistent") :=
  Eq.trans (c5_unknown_sort_fails
    { problem_uid := "p", range_filters := [], boolean_filters := [],
      sort_fields := ["size"], display_fields := [] }
    [] _ "nonexistent" rfl (by decide)) (by rfl)

/-! ## C10: validated uids stay inside the store root -/

/-- C10 counterexample: check_uid_pattern accepts the empty string, yet the
storage path the file store derives for it is the sibling of the root with
the json.xz suffix spliced onto the root's own name, not a descendant of the
root. -/
theorem c10_path_escape_counterexample :
    check_uid_pattern "" = true ∧
    storagePath ["data".data, "instances".data] "" =
      ["data".data, "instances.json.xz".data] ∧
    descendantB ["data".data, "instances".data]
      (storagePath ["data".data, "instances".data] "") = false := by
  refine ⟨rfl, by decide, by decide⟩

lemma allowedChar_ne_dot (c : Char) (h : allowedChar c = true) : c ≠ '.' := by
  intro hc
  rw [hc] at h
  exact absurd h (by decide)

lemma splitSlash_chars :
    ∀ (cs : List Char) (p : List Char), p ∈ splitSlash cs → ∀ c ∈ p, c ∈ cs := by
  intro cs
  induction cs with
  | nil =>
    intro p hp c hc
    simp [splitSlash] at hp
    rw [hp] at hc
    cases hc
  | cons c0 rest ih =>
    intro p hp c hc
    by_cases h0 : c0 = '/'
    · simp only [splitSlash, if_pos h0] at hp
      rcases List.mem_cons.mp hp with hp | hp
      · rw [hp] at hc
        cases hc
      · exact List.mem_cons_of_mem c0 (ih p hp c hc)
    · simp only [splitSlash, if_neg h0] at hp
      rcases hsp : splitSlash rest with _ | ⟨p0, ps⟩ <;> rw [hsp] at hp
      · rcases List.mem_cons.mp hp with hp | hp
        · rw [hp] at hc
          rcases List.mem_cons.mp hc with hc | hc
          · rw [hc]
            exact List.mem_cons_self c0 rest
          · cases hc
        · cases hp
      · rcases List.mem_cons.mp hp with hp | hp
        · rw [hp] at hc
          rcases List.mem_cons.mp hc with hc | hc
          · rw [hc]
            exact List.mem_cons_self c0 rest
          · refine List.mem_cons_of_mem c0 (ih p0 ?_ c hc)
            rw [hsp]
            exact List.mem_cons_self p0 ps
        · refine List.mem_cons_of_mem c0 (ih p ?_ c hc)
          rw [hsp]
          exact List.mem_cons_of_mem p0 hp

lemma splitSlash_head (c0 : Char) (rest : List Char) (h0 : c0 ≠ '/') :
    ∃ p ps, splitSlash (c0 :: rest) = (c0 :: p) :: ps := by
  simp only [splitSlash, if_neg h0]
  rcases hsp : splitSlash rest with _ | ⟨p0, ps⟩
  · exact ⟨[], [], rfl⟩
  · exact ⟨p0, ps, rfl⟩

lemma withSuffixParts_eq (parts : List (List Char)) (nm sfx : List Char)
    (h : parts.getLast? = some nm) :
    withSuffixParts parts sfx = parts.dropLast ++ [stemChars nm ++ sfx] := by
  unfold withSuffixParts
  rw [h]

lemma isPrefixOf_append_self (l m : List (List Char)) :
    l.isPrefixOf (l ++ m) = true := by
  induction l with
  | nil => simp [List.isPrefixOf]
  | cons a as ih => simp [List.isPrefixOf, ih]

lemma descendantB_append (root X : List (List Char)) (hX : X ≠ []) :
    descendantB root (root ++ X) = true := by
  unfold descendantB
  rw [isPrefixOf_append_self]
  have hlen : 0 < X.length := List.length_pos.mpr hX
  simp [List.length_append]
  omega

/-- C10 (amended): for every non-empty uid accepted by check_uid_pattern,
the storage path lies strictly below the store root, and no component of the
uid contains a dot (hence none is a dot-dot traversal step); the empty
string, also accepted, escapes as the counterexample shows. -/
theorem c10_validated_uid_no_escape (root : List (List Char)) (uid : String)
    (_hroot : root ≠ []) (hvalid : check_uid_pattern uid = true)
    (hne : uid ≠ "") :
    descendantB root (storagePath root uid) = true ∧
    ∀ comp ∈ pyPathParts uid, '.' ∉ comp := by
  have hparts := hvalid
  simp only [check_uid_pattern, check_uid_chars, Bool.and_eq_true] at hparts
  obtain ⟨⟨hall, hhead⟩, hlast⟩ := hparts
  have hallMem : ∀ c ∈ uid.data, allowedChar c = true := by
    intro c hc
    exact List.all_eq_true.mp hall c hc
  have hnodot : ∀ comp ∈ pyPathParts uid, '.' ∉ comp := by
    intro comp hcomp hdot
    have hsp : comp ∈ splitSlash uid.data := (List.mem_filter.mp hcomp).1
    have : '.' ∈ uid.data := splitSlash_chars uid.data comp hsp '.' hdot
    exact allowedChar_ne_dot '.' (hallMem '.' this) rfl
  refine ⟨?_, hnodot⟩
  have hdne : uid.data ≠ [] := by
    intro hd
    apply hne
    have huid : uid = String.mk uid.data := rfl
    rw [huid, hd]
  rcases hdata : uid.data with _ | ⟨c0, rest⟩
  · exact absurd hdata hdne
  · have hc0slash : c0 ≠ '/' := by
      intro hc
      rw [hdata, hc] at hhead
      simp at hhead
    have hc0dot : c0 ≠ '.' := by
      refine allowedChar_ne_dot c0 (hallMem c0 ?_)
      rw [hdata]
      exact List.mem_cons_self c0 rest
    obtain ⟨p, ps, hsp⟩ := splitSlash_head c0 rest hc0slash
    have hPP : pyPathParts uid = (c0 :: p) ::
        ps.filter (fun q => decide (q ≠ [] ∧ q ≠ ['.'])) := by
      unfold pyPathParts
      rw [hdata, hsp]
      rw [List.filter_cons_of_pos]
      simp only [decide_eq_true_eq]
      refine ⟨by simp, ?_⟩
      intro hq
      injection hq with hq1 hq2
      exact hc0dot hq1
    rcases hlastq : ((c0 :: p) ::
        ps.filter (fun q => decide (q ≠ [] ∧ q ≠ ['.']))).getLast? with _ | nm
    · simp at hlastq
    · have hPne : ((c0 :: p) ::
          ps.filter (fun q => decide (q ≠ [] ∧ q ≠ ['.']))) ≠ [] :=
        List.cons_ne_nil _ _
      have hsplast : (root ++ (c0 :: p) ::
          ps.filter (fun q => decide (q ≠ [] ∧ q ≠ ['.']))).getLast? = some nm := by
        rw [List.getLast?_append, hlastq]
        rfl
      have hpath : storagePath root uid =
          root ++ (((c0 :: p) ::
            ps.filter (fun q => decide (q ≠ [] ∧ q ≠ ['.']))).dropLast ++
            [stemChars nm ++ jsonXzSuffix]) := by
        unfold storagePath
        rw [hPP, withSuffixParts_eq _ nm _ hsplast,
          List.dropLast_append_of_ne_nil root hPne, List.append_assoc]
      rw [hpath]
      exact descendantB_append root _ (by simp)

/-- C10 witness: the amended containment property evaluated at a concrete
root and the concrete uid a/b. -/
theorem c10_validated_uid_no_escape_witness :
    descendantB ["data".data, "instances".data]
      (storagePath ["data".data, "instances".data] "a/b") = true :=
  (c10_validated_uid_no_escape ["data".data, "instances".data] "a/b"
    (by decide) (by decide) (by decide)).1

end InstanceRepo
